import Mathlib

/-!
Shallow embedding of `myshell.c`, a small interactive command interpreter:
tokenizer, bounded alias table with text persistence, builtin registry,
dispatcher and read-execute loop. C `int` status codes are kept as `Nat`
(1 = continue, 0 = stop); the null-terminated `char **args` arrays become
`List String`; the global shell state becomes an explicit `Shell` record;
the filesystem that `fopen`/`fscanf`/`fprintf` touch becomes an association
list from path to file content; `fork`/`execvp` outcomes become an explicit
`SpawnOutcome` oracle.
-/

namespace MyShell

/-- `#define MAX_ALIASES 10` — maximum number of allowed aliases. -/
def MAX_ALIASES : Nat := 10

/-- `struct Alias { char *new_name; char *old_name; }`. -/
structure Alias where
  new_name : String
  old_name : String
deriving DecidableEq, Repr

/-- The global mutable shell state: `char *shellname`, `char *terminator`,
`struct Alias aliases[MAX_ALIASES]` together with `int alias_count`
(modelled as the length of the list). -/
structure Shell where
  shellname : String
  terminator : String
  aliases : List Alias
deriving DecidableEq, Repr

/-- Initial state: `shellname = "myshell"`, `terminator = ">"`, empty table. -/
def initShell : Shell := ⟨"myshell", ">", []⟩

/-- Filesystem model: association list from path to file content.
`fopen(path, "r")` succeeds iff the path is present. -/
abbrev FS := List (String × String)

/-- First-match lookup of a path, as `fopen(path, "r")` finds the file. -/
def fsRead (fs : FS) (path : String) : Option String :=
  match fs with
  | [] => none
  | (p, c) :: rest => if p = path then some c else fsRead rest path

/-- `fopen(path, "w")` followed by writing `content`: creates or truncates. -/
def fsWrite (fs : FS) (path content : String) : FS :=
  (path, content) :: fs

/-- Result of one handler / dispatch step: the C return status
(1 = continue, 0 = stop), the updated shell state and filesystem, and the
lines written to stdout and stderr. -/
structure HRes where
  status : Nat
  shell : Shell
  fs : FS
  out : List String
  err : List String
deriving DecidableEq, Repr

/-! ## Tokenizers

`lsh_split_line` uses `strtok` with delimiters `" \t\r\n\a"`;
`readnewnames` uses `fscanf("%s %s")`, which skips C whitespace
(space, `\t`, `\n`, `\v`, `\f`, `\r`). Both split a character sequence into
maximal runs of non-delimiter characters, dropping empty pieces. -/

/-- The delimiter set of `LSH_TOK_DELIM` = `" \t\r\n\a"`. -/
def isTokDelim (c : Char) : Bool :=
  c = ' ' || c = '\t' || c = '\r' || c = '\n' || c = '\x07'

/-- C `isspace`, the delimiter set of `fscanf("%s")`. -/
def isCSpace (c : Char) : Bool :=
  c = ' ' || c = '\t' || c = '\n' || c = '\x0b' || c = '\x0c' || c = '\r'

/-- Split a character list on a delimiter predicate into maximal non-empty
runs of non-delimiter characters, accumulating the current token reversed. -/
def splitChars (p : Char → Bool) : List Char → List Char → List String
  | [], acc => if acc.isEmpty then [] else [String.mk acc.reverse]
  | c :: cs, acc =>
    if p c then
      if acc.isEmpty then splitChars p cs []
      else String.mk acc.reverse :: splitChars p cs []
    else splitChars p cs (c :: acc)

/-- `lsh_split_line`: split an input line into tokens with `strtok`. -/
def lsh_split_line (line : String) : List String :=
  splitChars isTokDelim line.data []

/-- The token stream `fscanf("%s")` produces from a file's content. -/
def scanTokens (content : String) : List String :=
  splitChars isCSpace content.data []

/-- Pair up consecutive tokens, as the loop
`while (fscanf(file, "%s %s", new_name, old_name) == 2)` does; a trailing
unpaired token makes `fscanf` return 1, ending the loop with the token
dropped. -/
def pairUp : List String → List (String × String)
  | a :: b :: rest => (a, b) :: pairUp rest
  | _ => []

/-! ## Alias table operations -/

/-- The deletion scan of `newname` (one-argument form): find the first entry
whose `new_name` matches and remove it, shifting the rest down; `none` when
no entry matches. -/
def removeFirstAlias (name : String) : List Alias → Option (List Alias)
  | [] => none
  | a :: rest =>
    if a.new_name = name then some rest
    else (removeFirstAlias name rest).map (a :: ·)

/-- The alias-replacement scan in `lsh_execute`: first entry (insertion
order) whose `new_name` equals the given name wins; the loop `break`s at
the first match. -/
def resolveAlias (name : String) : List Alias → Option String
  | [] => none
  | a :: rest =>
    if a.new_name = name then some a.old_name else resolveAlias name rest

/-- The appending loop of `readnewnames`: each parsed pair is added only
while `alias_count < MAX_ALIASES`; excess pairs are dropped silently and
reading continues to the end of the pair list. -/
def appendPairs (al : List Alias) : List (String × String) → List Alias
  | [] => al
  | (n, o) :: rest =>
    if al.length < MAX_ALIASES then appendPairs (al ++ [⟨n, o⟩]) rest
    else appendPairs al rest

/-! ## Builtin handlers

Each C handler `int f(char **args)` becomes
`List String → Shell → FS → HRes`. Stdout text produced by `printf` is
collected in `out`, stderr text from `fprintf(stderr, ...)`/`perror` in
`err`. -/

/-- `lsh_cd`: missing directory argument is a usage error; the `chdir`
effect itself is outside the model (no claim concerns the working
directory); always returns 1. -/
def lsh_cd (args : List String) (sh : Shell) (fs : FS) : HRes :=
  match args.get? 1 with
  | none => ⟨1, sh, fs, [], ["lsh: expected argument to \"cd\""]⟩
  | some _ => ⟨1, sh, fs, [], []⟩

/-- `lsh_help`: prints the static command summary, returns 1. -/
def lsh_help (_args : List String) (sh : Shell) (fs : FS) : HRes :=
  ⟨1, sh, fs,
    ["myshell - Available commands:",
     "HELP: Show this help message.",
     "STOP: Terminate the shell session.",
     "SETSHELLNAME <name>: Set the shell prompt name.",
     "SETTERMINATOR <terminator>: Set the prompt terminator.",
     "NEWNAME <new_name> <old_name>: Create an alias for a command.",
     "LISTNEWNAMES: List all aliases.",
     "SAVENEWNAMES <file_name>: Save aliases to a file.",
     "READNEWNAMES <file_name>: Read aliases from a file.",
     "<UNIX_command>: Execute any valid UNIX command."], []⟩

/-- `lsh_exit`: returns 0 to terminate the loop. -/
def lsh_exit (_args : List String) (sh : Shell) (fs : FS) : HRes :=
  ⟨0, sh, fs, [], []⟩

/-- `lsh_stop`: returns 0 to terminate the loop. -/
def lsh_stop (_args : List String) (sh : Shell) (fs : FS) : HRes :=
  ⟨0, sh, fs, [], []⟩

/-- `setshellname`: sets the prompt name; with no argument resets to
`"myshell"`. -/
def setshellname (args : List String) (sh : Shell) (fs : FS) : HRes :=
  match args.get? 1 with
  | none => ⟨1, { sh with shellname := "myshell" }, fs, [], []⟩
  | some a1 => ⟨1, { sh with shellname := a1 }, fs, [], []⟩

/-- `setterminator`: sets the prompt terminator; with no argument resets to
`">"`. -/
def setterminator (args : List String) (sh : Shell) (fs : FS) : HRes :=
  match args.get? 1 with
  | none => ⟨1, { sh with terminator := ">" }, fs, [], []⟩
  | some a1 => ⟨1, { sh with terminator := a1 }, fs, [], []⟩

/-- `newname`: with no argument a usage error; with one argument deletes the
first matching alias (reporting `Alias not found` when absent); with two
arguments appends a new pair when `alias_count < MAX_ALIASES`, else reports
that the maximum number of aliases is reached. Always returns 1. -/
def newname (args : List String) (sh : Shell) (fs : FS) : HRes :=
  match args.get? 1 with
  | none => ⟨1, sh, fs, [], ["Error: expected 1 or 2 arguments to \"newname\""]⟩
  | some a1 =>
    match args.get? 2 with
    | none =>
      match removeFirstAlias a1 sh.aliases with
      | some al => ⟨1, { sh with aliases := al }, fs, [], []⟩
      | none => ⟨1, sh, fs, [], ["Alias not found: " ++ a1]⟩
    | some a2 =>
      if sh.aliases.length < MAX_ALIASES then
        ⟨1, { sh with aliases := sh.aliases ++ [⟨a1, a2⟩] }, fs, [], []⟩
      else
        ⟨1, sh, fs, [], ["Maximum number of aliases reached."]⟩

/-- `listnewnames`: prints each alias as `"<new> -> <old>"` in table order,
returns 1. -/
def listnewnames (_args : List String) (sh : Shell) (fs : FS) : HRes :=
  ⟨1, sh, fs, sh.aliases.map (fun a => a.new_name ++ " -> " ++ a.old_name), []⟩

/-- The exact file content `savenewnames` writes: one line
`"<new_name> <old_name>\n"` per alias, in table order. -/
def saveContent : List Alias → String
  | [] => ""
  | a :: rest => a.new_name ++ " " ++ a.old_name ++ "\n" ++ saveContent rest

/-- `savenewnames`: missing file argument is a usage error; otherwise opens
the file for writing (always succeeds in the model) and writes the table.
Always returns 1 and never touches the shell state. -/
def savenewnames (args : List String) (sh : Shell) (fs : FS) : HRes :=
  match args.get? 1 with
  | none => ⟨1, sh, fs, [], ["Error: argument 1 expected to \"SAVENEWNAMES\""]⟩
  | some path => ⟨1, sh, fsWrite fs path (saveContent sh.aliases), [], []⟩

/-- `readnewnames`: missing file argument is a usage error; a missing file
reports the `fopen` failure; otherwise every parsed pair is appended while
the table is below capacity, silently dropping the excess. Always
returns 1. -/
def readnewnames (args : List String) (sh : Shell) (fs : FS) : HRes :=
  match args.get? 1 with
  | none => ⟨1, sh, fs, [], ["Error: argument 1 expected to \"READNEWNAMES\""]⟩
  | some path =>
    match fsRead fs path with
    | none => ⟨1, sh, fs, [], ["Error opening file: No such file or directory"]⟩
    | some content =>
      ⟨1, { sh with aliases := appendPairs sh.aliases (pairUp (scanTokens content)) },
        fs, [], []⟩

/-! ## Builtin registry -/

/-- `builtin_str[]`, in declaration order. -/
def builtin_str : List String :=
  ["cd", "help", "exit", "setshellname", "setterminator", "newname",
   "listnewnames", "savenewnames", "readnewnames", "STOP"]

/-- `builtin_func[]`, parallel to `builtin_str`. -/
def builtin_func : List (List String → Shell → FS → HRes) :=
  [lsh_cd, lsh_help, lsh_exit, setshellname, setterminator, newname,
   listnewnames, savenewnames, readnewnames, lsh_stop]

/-- The builtin scan of `lsh_execute`: first `i` with
`strcmp(args[0], builtin_str[i]) == 0` selects `builtin_func[i]`. -/
def findBuiltin (name : String) : Option (List String → Shell → FS → HRes) :=
  List.lookup name (builtin_str.zip builtin_func)

/-! ## Process launcher -/

/-- What the OS does when asked to spawn a command: a normal run (the child's
own exit information is ignored by the parent), `execvp` failing inside the
child with an error text, or `fork` itself failing. -/
inductive SpawnOutcome where
  | ok
  | execFail (msg : String)
  | forkFail (msg : String)
deriving DecidableEq, Repr

/-- `lsh_launch`: forks and waits. On `execvp` failure the child `perror`s
and exits with failure status, which the parent merely waits for; on `fork`
failure the parent `perror`s. In every case `lsh_launch` returns 1. Result:
(status, stderr lines). -/
def lsh_launch (_args : List String) : SpawnOutcome → Nat × List String
  | .ok => (1, [])
  | .execFail msg => (1, ["lsh: " ++ msg])
  | .forkFail msg => (1, ["lsh: " ++ msg])

/-! ## Dispatcher -/

/-- `lsh_execute`: empty command is a no-op returning 1; otherwise the alias
table is scanned in insertion order and the first match replaces `args[0]`
(once); then the builtin registry is scanned against the possibly
substituted name; with no builtin match the tokens go to `lsh_launch`.
`spawn` is the OS oracle consulted for external commands. -/
def lsh_execute (spawn : List String → SpawnOutcome) (args : List String)
    (sh : Shell) (fs : FS) : HRes :=
  match args with
  | [] => ⟨1, sh, fs, [], []⟩
  | a0 :: rest =>
    let a0' := match resolveAlias a0 sh.aliases with
               | some old => old
               | none => a0
    match findBuiltin a0' with
    | some f => f (a0' :: rest) sh fs
    | none =>
      let r := lsh_launch (a0' :: rest) (spawn (a0' :: rest))
      ⟨r.1, sh, fs, [], r.2⟩

/-- The dispatcher from the builtin-lookup step on (lines 328–336 of the
source), with NO alias-substitution step: used to state that `lsh_execute`
performs exactly one alias rewrite and never re-resolves the substituted
name. -/
def execResolved (spawn : List String → SpawnOutcome) (args : List String)
    (sh : Shell) (fs : FS) : HRes :=
  match args with
  | [] => ⟨1, sh, fs, [], []⟩
  | a0 :: rest =>
    match findBuiltin a0 with
    | some f => f (a0 :: rest) sh fs
    | none =>
      let r := lsh_launch (a0 :: rest) (spawn (a0 :: rest))
      ⟨r.1, sh, fs, [], r.2⟩

/-! ## Read-execute loop

`lsh_read_line` reads characters until `'\n'` (returning the buffered line)
or `EOF` (terminating the whole process with `exit(EXIT_SUCCESS)`,
discarding any buffered characters). Hence a run of the interpreter
processes exactly the newline-terminated prefix lines of its input, in
order, and end-of-input exits with status 0. -/

/-- The newline-terminated lines of the input character stream, in order;
characters buffered after the last `'\n'` are discarded by the `EOF` exit
path of `lsh_read_line` and produce no line. -/
def completeLinesAux : List Char → List Char → List String
  | [], _acc => []
  | c :: cs, acc =>
    if c = '\n' then String.mk acc.reverse :: completeLinesAux cs []
    else completeLinesAux cs (c :: acc)

/-- The prompt `lsh_loop` prints before each read:
`printf("%s%s ", shellname, terminator)`. -/
def promptOf (sh : Shell) : String := sh.shellname ++ sh.terminator ++ " "

/-- Observable result of a full interpreter run: the process exit status,
the prompts printed (one per loop iteration, in order), and the token
sequences dispatched to `lsh_execute`, in order. -/
structure LoopRes where
  exitStatus : Nat
  prompts : List String
  trace : List (List String)
deriving DecidableEq, Repr

/-- `lsh_loop` over the line sequence: each iteration prints the prompt,
reads a line, tokenizes and dispatches it, and repeats while the status is
non-zero; exhausting the input means `lsh_read_line` hits `EOF` (after the
prompt is printed) and the process exits with status 0; a zero status ends
the loop and `main` returns `EXIT_SUCCESS`. -/
def loopLines (spawn : List String → SpawnOutcome) :
    Shell → FS → List String → LoopRes
  | sh, _fs, [] => ⟨0, [promptOf sh], []⟩
  | sh, fs, line :: rest =>
    let args := lsh_split_line line
    let r := lsh_execute spawn args sh fs
    if r.status = 0 then ⟨0, [promptOf sh], [args]⟩
    else
      let res := loopLines spawn r.shell r.fs rest
      ⟨res.exitStatus, promptOf sh :: res.prompts, args :: res.trace⟩

/-- A full run of the interpreter (`main` → `lsh_loop`) on an input
character stream. -/
def runShell (spawn : List String → SpawnOutcome) (sh : Shell) (fs : FS)
    (input : List Char) : LoopRes :=
  loopLines spawn sh fs (completeLinesAux input [])

/-- An alias-table mutation reachable through the two appending commands:
`newname new old` (define) or `readnewnames path` (load). -/
inductive AliasOp where
  | defineOp (n o : String)
  | loadOp (path : String)

/-- Run one alias-table operation through the corresponding handler and keep
the resulting shell state. -/
def applyOp (fs : FS) (sh : Shell) : AliasOp → Shell
  | .defineOp n o => (newname ["newname", n, o] sh fs).shell
  | .loadOp path => (readnewnames ["readnewnames", path] sh fs).shell

/-! ## Helper lemmas -/

/-- The alias-replacement scan returns the target of the first entry (in
insertion order) whose `new_name` matches, i.e. it agrees with
`List.find?`. -/
lemma resolveAlias_eq_find (n : String) (al : List Alias) :
    resolveAlias n al = (al.find? (fun a => a.new_name == n)).map Alias.old_name := by
  induction al with
  | nil => rfl
  | cons a rest ih =>
    by_cases h : a.new_name = n
    · rw [resolveAlias, if_pos h, List.find?_cons_of_pos _ (by simp [h])]
      rfl
    · rw [resolveAlias, if_neg h, List.find?_cons_of_neg _ (by simp [h]), ih]

/-- Resolution at an explicit first-match index. -/
lemma resolveAlias_at (n : String) (al : List Alias) (i : Nat) (ai : Alias)
    (hi : al[i]? = some ai) (hm : ai.new_name = n)
    (hf : ∀ a ∈ al.take i, a.new_name ≠ n) :
    resolveAlias n al = some ai.old_name := by
  induction al generalizing i with
  | nil => simp at hi
  | cons a rest ih =>
    cases i with
    | zero =>
      simp only [List.getElem?_cons_zero, Option.some.injEq] at hi
      subst hi
      rw [resolveAlias, if_pos hm]
    | succ j =>
      have ha : a.new_name ≠ n := hf a (by simp [List.take_succ_cons])
      rw [resolveAlias, if_neg ha]
      exact ih j (by simpa using hi)
        (fun b hb => hf b (by simp [List.take_succ_cons, hb]))

/-- When no entry matches, the deletion scan of `newname` finds nothing. -/
lemma removeFirstAlias_none (n : String) (al : List Alias)
    (h : ∀ a ∈ al, a.new_name ≠ n) : removeFirstAlias n al = none := by
  induction al with
  | nil => rfl
  | cons a rest ih =>
    rw [removeFirstAlias, if_neg (h a (by simp))]
    rw [ih (fun b hb => h b (by simp [hb]))]
    rfl

/-- The deletion scan removes exactly the entry at the first matching index,
keeping everything before and after it in order. -/
lemma removeFirstAlias_at (n : String) (al : List Alias) (i : Nat) (ai : Alias)
    (hi : al[i]? = some ai) (hm : ai.new_name = n)
    (hf : ∀ a ∈ al.take i, a.new_name ≠ n) :
    removeFirstAlias n al = some (al.take i ++ al.drop (i + 1)) := by
  induction al generalizing i with
  | nil => simp at hi
  | cons a rest ih =>
    cases i with
    | zero =>
      simp only [List.getElem?_cons_zero, Option.some.injEq] at hi
      subst hi
      rw [removeFirstAlias, if_pos hm]
      simp
    | succ j =>
      have ha : a.new_name ≠ n := hf a (by simp [List.take_succ_cons])
      rw [removeFirstAlias, if_neg ha]
      rw [ih j (by simpa using hi)
        (fun b hb => hf b (by simp [List.take_succ_cons, hb]))]
      simp [List.take_succ_cons]

/-- A run of non-delimiter characters is carried whole into the token
accumulator. -/
lemma splitChars_nondelim_run (p : Char → Bool) (t : List Char)
    (rest acc : List Char) (hall : ∀ c ∈ t, p c = false) :
    splitChars p (t ++ rest) acc = splitChars p rest (t.reverse ++ acc) := by
  induction t generalizing acc with
  | nil => simp
  | cons c t' ih =>
    have hc : p c = false := hall c (by simp)
    rw [List.cons_append, splitChars, if_neg (by simp [hc])]
    rw [ih (c :: acc) (fun b hb => hall b (by simp [hb]))]
    simp

/-- A delimiter flushes a non-empty accumulator as one finished token. -/
lemma splitChars_delim_head (p : Char → Bool) (d : Char) (rest acc : List Char)
    (hd : p d = true) (hacc : acc ≠ []) :
    splitChars p (d :: rest) acc = String.mk acc.reverse :: splitChars p rest [] := by
  rw [splitChars, if_pos hd]
  rw [if_neg (by simpa [List.isEmpty_iff] using hacc)]

/-- Splitting a non-empty all-non-delimiter token followed by a delimiter
yields that token and continues after the delimiter. -/
lemma splitChars_token (p : Char → Bool) (t : List Char) (d : Char)
    (rest : List Char) (ht : t ≠ []) (hall : ∀ c ∈ t, p c = false)
    (hd : p d = true) :
    splitChars p (t ++ d :: rest) [] = String.mk t :: splitChars p rest [] := by
  rw [splitChars_nondelim_run p t (d :: rest) [] hall, List.append_nil]
  rw [splitChars_delim_head p d rest t.reverse hd (by simpa using ht)]
  simp

/-- Scanning the saved file back with `fscanf("%s %s")` recovers exactly the
(new_name, old_name) pairs in table order, provided every stored name is
non-empty and free of C whitespace. -/
lemma pairUp_scanTokens_saveContent (al : List Alias)
    (h : ∀ a ∈ al, a.new_name ≠ "" ∧ a.old_name ≠ "" ∧
      (∀ c ∈ a.new_name.data, isCSpace c = false) ∧
      (∀ c ∈ a.old_name.data, isCSpace c = false)) :
    pairUp (scanTokens (saveContent al)) = al.map (fun a => (a.new_name, a.old_name)) := by
  induction al with
  | nil => rfl
  | cons a rest ih =>
    obtain ⟨hn, ho, hnc, hoc⟩ := h a (by simp)
    have hn' : a.new_name.data ≠ [] := by
      intro hd
      exact hn (String.ext (hd.trans rfl))
    have ho' : a.old_name.data ≠ [] := by
      intro hd
      exact ho (String.ext (hd.trans rfl))
    have hdata : (saveContent (a :: rest)).data =
        a.new_name.data ++ ' ' :: (a.old_name.data ++ '\n' :: (saveContent rest).data) := by
      rw [saveContent]
      simp [String.data_append]
    rw [scanTokens, hdata]
    rw [splitChars_token isCSpace a.new_name.data ' ' _ hn' hnc rfl]
    rw [splitChars_token isCSpace a.old_name.data '\n' _ ho' hoc rfl]
    rw [pairUp]
    rw [show splitChars isCSpace (saveContent rest).data [] = scanTokens (saveContent rest) from rfl]
    rw [ih (fun b hb => h b (by simp [hb]))]
    rfl

/-- The appending loop of `readnewnames` never pushes the table past
`MAX_ALIASES`. -/
lemma appendPairs_length_le (ps : List (String × String)) :
    ∀ al : List Alias, al.length ≤ MAX_ALIASES →
      (appendPairs al ps).length ≤ MAX_ALIASES := by
  induction ps with
  | nil => intro al h; exact h
  | cons q rest ih =>
    intro al h
    obtain ⟨n, o⟩ := q
    rw [appendPairs]
    by_cases hlt : al.length < MAX_ALIASES
    · rw [if_pos hlt]
      exact ih _ (by simpa using hlt)
    · rw [if_neg hlt]
      exact ih _ h

/-- At (or beyond) capacity, the appending loop leaves the table untouched
however many pairs it scans. -/
lemma appendPairs_full (ps : List (String × String)) :
    ∀ al : List Alias, MAX_ALIASES ≤ al.length → appendPairs al ps = al := by
  induction ps with
  | nil => intro al _; rfl
  | cons q rest ih =>
    intro al h
    obtain ⟨n, o⟩ := q
    rw [appendPairs, if_neg (by omega)]
    exact ih al h

/-- Below capacity, the appending loop appends every pair in order. -/
lemma appendPairs_all (ps : List (String × String)) :
    ∀ al : List Alias, al.length + ps.length ≤ MAX_ALIASES →
      appendPairs al ps = al ++ ps.map (fun q => (⟨q.1, q.2⟩ : Alias)) := by
  induction ps with
  | nil => intro al _; simp [appendPairs]
  | cons q rest ih =>
    intro al h
    obtain ⟨n, o⟩ := q
    simp only [List.length_cons] at h
    rw [appendPairs, if_pos (by omega)]
    have hlen : (al ++ [(⟨n, o⟩ : Alias)]).length + rest.length ≤ MAX_ALIASES := by
      simp only [List.length_append, List.length_cons, List.length_nil]
      omega
    refine (ih (al ++ [⟨n, o⟩]) hlen).trans ?_
    simp

/-- The loop exits only through paths that end the process with status 0. -/
lemma loopLines_exitStatus (spawn : List String → SpawnOutcome)
    (lines : List String) :
    ∀ (sh : Shell) (fs : FS), (loopLines spawn sh fs lines).exitStatus = 0 := by
  induction lines with
  | nil => intro sh fs; rfl
  | cons line rest ih =>
    intro sh fs
    rw [loopLines]
    by_cases h : (lsh_execute spawn (lsh_split_line line) sh fs).status = 0
    · rw [if_pos h]
    · rw [if_neg h]
      simpa using ih _ _

/-- An input stream with no newline yields no complete line. -/
lemma completeLinesAux_no_newline (l : List Char)
    (h : ∀ c ∈ l, c ≠ '\n') : ∀ acc, completeLinesAux l acc = [] := by
  induction l with
  | nil => intro acc; rfl
  | cons c cs ih =>
    intro acc
    rw [completeLinesAux, if_neg (h c (by simp))]
    exact ih (fun b hb => h b (by simp [hb])) _

/-- One define or load step keeps the table within capacity. -/
lemma applyOp_length_le (fs : FS) (sh : Shell) (op : AliasOp)
    (h : sh.aliases.length ≤ MAX_ALIASES) :
    (applyOp fs sh op).aliases.length ≤ MAX_ALIASES := by
  cases op with
  | defineOp n o =>
    by_cases hlt : sh.aliases.length < MAX_ALIASES
    · simp [applyOp, newname, hlt]
      omega
    · simp [applyOp, newname, hlt]
      exact h
  | loadOp path =>
    cases hr : fsRead fs path with
    | none => simpa [applyOp, readnewnames, hr] using h
    | some content =>
      simpa [applyOp, readnewnames, hr] using
        appendPairs_length_le (pairUp (scanTokens content)) sh.aliases h

/-- Any sequence of define/load steps keeps the table within capacity. -/
lemma foldl_applyOp_length_le (fs : FS) (ops : List AliasOp) :
    ∀ sh : Shell, sh.aliases.length ≤ MAX_ALIASES →
      ((ops.foldl (applyOp fs) sh).aliases.length ≤ MAX_ALIASES) := by
  induction ops with
  | nil => intro sh h; exact h
  | cons op rest ih =>
    intro sh h
    rw [List.foldl_cons]
    exact ih _ (applyOp_length_le fs sh op h)

/-! ## Claim theorems -/

/-- C10: `listnewnames` and `savenewnames` are read-only with respect to
shell state: for every shell state and argument list, they leave every
component of the state unchanged and return Continue (status 1). -/
theorem list_save_are_readonly (args : List String) (sh : Shell) (fs : FS) :
    (listnewnames args sh fs).shell = sh ∧ (listnewnames args sh fs).status = 1 ∧
    (savenewnames args sh fs).shell = sh ∧ (savenewnames args sh fs).status = 1 := by
  refine ⟨rfl, rfl, ?_, ?_⟩ <;>
    · cases h : args[1]? <;> simp [savenewnames, h]

/-- C7: invoking `newname` with exactly one argument whose name matches no
alias entry reports the not-found error, returns Continue (status 1), and
leaves the alias table (the whole shell state and filesystem, in fact)
unchanged. -/
theorem undefine_missing_reports_notfound (sh : Shell) (fs : FS) (n : String)
    (h : ∀ a ∈ sh.aliases, a.new_name ≠ n) :
    newname ["newname", n] sh fs = ⟨1, sh, fs, [], ["Alias not found: " ++ n]⟩ := by
  simp [newname, removeFirstAlias_none n sh.aliases h]

/-- Witness for C7: deleting `ll` from a table holding only `ls` reports
not-found and changes nothing. -/
theorem undefine_missing_reports_notfound_witness :
    (∀ a ∈ (⟨"myshell", ">", [⟨"ls", "dir"⟩]⟩ : Shell).aliases, a.new_name ≠ "ll") ∧
    newname ["newname", "ll"] ⟨"myshell", ">", [⟨"ls", "dir"⟩]⟩ [] =
      ⟨1, ⟨"myshell", ">", [⟨"ls", "dir"⟩]⟩, [], [], ["Alias not found: ll"]⟩ :=
  ⟨by decide, undefine_missing_reports_notfound ⟨"myshell", ">", [⟨"ls", "dir"⟩]⟩ [] "ll" (by decide)⟩

/-- C6: a failed external launch is never fatal: `lsh_launch` returns
Continue (status 1) for a normal run, an exec failure and a fork failure,
reporting the two failures on the error stream, and dispatching a
non-builtin, non-alias command through `lsh_execute` always yields
Continue. -/
theorem launch_failure_never_fatal (args : List String) (m : String)
    (spawn : List String → SpawnOutcome) (sh : Shell) (fs : FS)
    (a0 : String) (rest : List String)
    (hna : resolveAlias a0 sh.aliases = none) (hnb : findBuiltin a0 = none) :
    (lsh_launch args .ok).1 = 1 ∧
    (lsh_launch args (.execFail m)).1 = 1 ∧
    (lsh_launch args (.forkFail m)).1 = 1 ∧
    (lsh_launch args (.execFail m)).2 = ["lsh: " ++ m] ∧
    (lsh_launch args (.forkFail m)).2 = ["lsh: " ++ m] ∧
    (lsh_execute spawn (a0 :: rest) sh fs).status = 1 := by
  refine ⟨rfl, rfl, rfl, rfl, rfl, ?_⟩
  rw [lsh_execute]
  simp only [hna, hnb]
  cases spawn (a0 :: rest) <;> rfl

/-- Witness for C6: the unknown command `nosuchcmd` with an empty alias
table is dispatched with status Continue whatever the OS does. -/
theorem launch_failure_never_fatal_witness :
    (resolveAlias "nosuchcmd" initShell.aliases = none ∧ findBuiltin "nosuchcmd" = none) ∧
    ((lsh_launch ["a"] .ok).1 = 1 ∧
     (lsh_launch ["a"] (.execFail "x")).1 = 1 ∧
     (lsh_launch ["a"] (.forkFail "x")).1 = 1 ∧
     (lsh_launch ["a"] (.execFail "x")).2 = ["lsh: " ++ "x"] ∧
     (lsh_launch ["a"] (.forkFail "x")).2 = ["lsh: " ++ "x"] ∧
     (lsh_execute (fun _ => SpawnOutcome.ok) ["nosuchcmd"] initShell []).status = 1) :=
  ⟨⟨by rfl, by rfl⟩,
    launch_failure_never_fatal ["a"] "x" (fun _ => SpawnOutcome.ok) initShell []
      "nosuchcmd" [] (by rfl) (by rfl)⟩

/-- C9: once the table holds `MAX_ALIASES` entries, `readnewnames` on a
readable file silently discards every parsed pair: no error is reported,
the table (and the whole result) is unchanged, and the capacity stays
exactly `MAX_ALIASES` — unlike a direct define, which reports the capacity
error. -/
theorem load_silent_discard_at_capacity (sh : Shell) (fs : FS)
    (path content n o : String)
    (hfile : fsRead fs path = some content)
    (hfull : sh.aliases.length = MAX_ALIASES) :
    readnewnames ["readnewnames", path] sh fs = ⟨1, sh, fs, [], []⟩ ∧
    (newname ["newname", n, o] sh fs).err = ["Maximum number of aliases reached."] := by
  constructor
  · simp [readnewnames, hfile,
      appendPairs_full (pairUp (scanTokens content)) sh.aliases (le_of_eq hfull.symm)]
  · simp [newname, if_neg (by omega : ¬ sh.aliases.length < MAX_ALIASES)]

/-- Witness for C9: loading two pairs into a full ten-entry table leaves it
untouched with no error, while a direct define reports the capacity
error. -/
theorem load_silent_discard_at_capacity_witness :
    (fsRead [("f", "p q r s")] "f" = some "p q r s" ∧
      (⟨"myshell", ">",
        [⟨"a0", "b"⟩, ⟨"a1", "b"⟩, ⟨"a2", "b"⟩, ⟨"a3", "b"⟩, ⟨"a4", "b"⟩,
         ⟨"a5", "b"⟩, ⟨"a6", "b"⟩, ⟨"a7", "b"⟩, ⟨"a8", "b"⟩, ⟨"a9", "b"⟩]⟩ : Shell).aliases.length
        = MAX_ALIASES) ∧
    (readnewnames ["readnewnames", "f"]
        ⟨"myshell", ">",
          [⟨"a0", "b"⟩, ⟨"a1", "b"⟩, ⟨"a2", "b"⟩, ⟨"a3", "b"⟩, ⟨"a4", "b"⟩,
           ⟨"a5", "b"⟩, ⟨"a6", "b"⟩, ⟨"a7", "b"⟩, ⟨"a8", "b"⟩, ⟨"a9", "b"⟩]⟩
        [("f", "p q r s")] =
      ⟨1, ⟨"myshell", ">",
        [⟨"a0", "b"⟩, ⟨"a1", "b"⟩, ⟨"a2", "b"⟩, ⟨"a3", "b"⟩, ⟨"a4", "b"⟩,
         ⟨"a5", "b"⟩, ⟨"a6", "b"⟩, ⟨"a7", "b"⟩, ⟨"a8", "b"⟩, ⟨"a9", "b"⟩]⟩,
        [("f", "p q r s")], [], []⟩ ∧
      (newname ["newname", "x", "y"]
        ⟨"myshell", ">",
          [⟨"a0", "b"⟩, ⟨"a1", "b"⟩, ⟨"a2", "b"⟩, ⟨"a3", "b"⟩, ⟨"a4", "b"⟩,
           ⟨"a5", "b"⟩, ⟨"a6", "b"⟩, ⟨"a7", "b"⟩, ⟨"a8", "b"⟩, ⟨"a9", "b"⟩]⟩
        [("f", "p q r s")]).err = ["Maximum number of aliases reached."]) :=
  ⟨⟨by decide, by decide⟩,
    load_silent_discard_at_capacity
      ⟨"myshell", ">",
        [⟨"a0", "b"⟩, ⟨"a1", "b"⟩, ⟨"a2", "b"⟩, ⟨"a3", "b"⟩, ⟨"a4", "b"⟩,
         ⟨"a5", "b"⟩, ⟨"a6", "b"⟩, ⟨"a7", "b"⟩, ⟨"a8", "b"⟩, ⟨"a9", "b"⟩]⟩
      [("f", "p q r s")] "f" "p q r s" "x" "y" (by decide) (by decide)⟩

/-- C5: a run of the interpreter exits with status 0 on every normal
termination path (exit builtin, STOP builtin, or end-of-input), and
end-of-input on an input with no newline terminates immediately with
success, dispatching nothing, whatever characters are buffered. -/
theorem exit_status_always_success (spawn : List String → SpawnOutcome)
    (sh : Shell) (fs : FS) (input input2 : List Char)
    (h : ∀ c ∈ input, c ≠ '\n') :
    (runShell spawn sh fs input2).exitStatus = 0 ∧
    runShell spawn sh fs input = ⟨0, [promptOf sh], []⟩ := by
  constructor
  · rw [runShell]
    exact loopLines_exitStatus spawn _ sh fs
  · rw [runShell, completeLinesAux_no_newline input h []]
    rfl

/-- Witness for C5: a run ended by the `exit` builtin exits with status 0,
and a partially typed line with no newline ends the run immediately with
status 0 and an empty dispatch trace. -/
theorem exit_status_always_success_witness :
    (∀ c ∈ ['p', 'a', 'r'], c ≠ '\n') ∧
    ((runShell (fun _ => SpawnOutcome.ok) initShell []
        ['e', 'x', 'i', 't', '\n', 'z']).exitStatus = 0 ∧
      runShell (fun _ => SpawnOutcome.ok) initShell [] ['p', 'a', 'r'] =
        ⟨0, [promptOf initShell], []⟩) :=
  ⟨by decide,
    exit_status_always_success (fun _ => SpawnOutcome.ok) initShell []
      ['p', 'a', 'r'] ['e', 'x', 'i', 't', '\n', 'z'] (by decide)⟩

/-- C8: the prompt written before each read is exactly the current
`shellname` followed by the current `terminator` and a single space; after
executing `setshellname bob` then `setterminator $` the next prompt is the
literal string `"bob$ "`; and invoking `setshellname` or `setterminator`
with no argument resets the respective field to its default. -/
theorem prompt_format_scenario (spawn : List String → SpawnOutcome)
    (sh : Shell) (fs : FS) (input : List Char) :
    (runShell spawn sh fs input).prompts.head? =
      some (sh.shellname ++ sh.terminator ++ " ") ∧
    (runShell (fun _ => SpawnOutcome.ok) initShell []
        ("setshellname bob\nsetterminator $\n".data)).prompts =
      ["myshell> ", "bob> ", "bob$ "] ∧
    (setshellname ["setshellname"] sh fs).shell = { sh with shellname := "myshell" } ∧
    (setterminator ["setterminator"] sh fs).shell = { sh with terminator := ">" } := by
  refine ⟨?_, by decide, rfl, rfl⟩
  rw [runShell]
  cases completeLinesAux input [] with
  | nil => rfl
  | cons l rest =>
    rw [loopLines]
    by_cases hst : (lsh_execute spawn (lsh_split_line l) sh fs).status = 0
    · rw [if_pos hst]; rfl
    · rw [if_neg hst]; rfl

/-- C1: dispatch of a non-empty token sequence first substitutes the first
token through the alias table (first matching entry in insertion order,
exactly once, with no re-resolution), then checks the substituted name
against the builtin registry, and hands the sequence to the process
launcher only when no builtin matches; an alias beats a builtin of the same
name because substitution happens first. -/
theorem dispatch_alias_substitution_first (spawn : List String → SpawnOutcome)
    (sh : Shell) (fs : FS) (a0 : String) (rest : List String) (s : String)
    (hs : s = ((sh.aliases.find? (fun a => a.new_name == a0)).map Alias.old_name).getD a0) :
    lsh_execute spawn (a0 :: rest) sh fs = execResolved spawn (s :: rest) sh fs ∧
    (findBuiltin s = none →
      lsh_execute spawn (a0 :: rest) sh fs =
        ⟨(lsh_launch (s :: rest) (spawn (s :: rest))).1, sh, fs, [],
          (lsh_launch (s :: rest) (spawn (s :: rest))).2⟩) := by
  subst hs
  have hres := resolveAlias_eq_find a0 sh.aliases
  have hmain : lsh_execute spawn (a0 :: rest) sh fs =
      execResolved spawn
        ((((sh.aliases.find? (fun a => a.new_name == a0)).map Alias.old_name).getD a0) :: rest)
        sh fs := by
    cases hf : sh.aliases.find? (fun a => a.new_name == a0) with
    | none =>
      have h0 : resolveAlias a0 sh.aliases = none := by rw [hres, hf]; rfl
      rw [lsh_execute, execResolved]
      simp only [h0, hf, Option.map_none', Option.getD_none]
    | some ai =>
      have h0 : resolveAlias a0 sh.aliases = some ai.old_name := by rw [hres, hf]; rfl
      rw [lsh_execute, execResolved]
      simp only [h0, hf, Option.map_some', Option.getD_some]
  refine ⟨hmain, fun hnb => ?_⟩
  rw [hmain, execResolved]
  simp only [hnb]

/-- Witness for C1: with aliases `exit → ls` and `exit → pwd`, dispatching
`exit` substitutes the earliest entry's target `ls` and checks `ls` (not
the builtin `exit`) against the registry. -/
theorem dispatch_alias_substitution_first_witness :
    ("ls" = ((((⟨"m", ">", [⟨"exit", "ls"⟩, ⟨"exit", "pwd"⟩]⟩ : Shell).aliases.find?
        (fun a => a.new_name == "exit")).map Alias.old_name).getD "exit")) ∧
    (lsh_execute (fun _ => SpawnOutcome.ok) ["exit", "x"]
        ⟨"m", ">", [⟨"exit", "ls"⟩, ⟨"exit", "pwd"⟩]⟩ [] =
      execResolved (fun _ => SpawnOutcome.ok) ["ls", "x"]
        ⟨"m", ">", [⟨"exit", "ls"⟩, ⟨"exit", "pwd"⟩]⟩ [] ∧
    (findBuiltin "ls" = none →
      lsh_execute (fun _ => SpawnOutcome.ok) ["exit", "x"]
          ⟨"m", ">", [⟨"exit", "ls"⟩, ⟨"exit", "pwd"⟩]⟩ [] =
        ⟨(lsh_launch ["ls", "x"] ((fun _ => SpawnOutcome.ok) ["ls", "x"])).1,
          ⟨"m", ">", [⟨"exit", "ls"⟩, ⟨"exit", "pwd"⟩]⟩, [], [],
          (lsh_launch ["ls", "x"] ((fun _ => SpawnOutcome.ok) ["ls", "x"])).2⟩)) :=
  ⟨by decide,
    dispatch_alias_substitution_first (fun _ => SpawnOutcome.ok)
      ⟨"m", ">", [⟨"exit", "ls"⟩, ⟨"exit", "pwd"⟩]⟩ [] "exit" ["x"] "ls" (by decide)⟩

/-- C2: after any sequence of define and load operations starting within
capacity, the alias table holds at most `MAX_ALIASES` entries; a define on
a full table leaves everything unchanged and reports the capacity error;
and the load loop admits each parsed pair under exactly the same capacity
rule as a define. -/
theorem alias_capacity_invariant (ops : List AliasOp) (sh : Shell) (fs : FS)
    (n o : String) (ps : List (String × String))
    (h : sh.aliases.length ≤ MAX_ALIASES) :
    (ops.foldl (applyOp fs) sh).aliases.length ≤ MAX_ALIASES ∧
    (sh.aliases.length = MAX_ALIASES →
      newname ["newname", n, o] sh fs =
        ⟨1, sh, fs, [], ["Maximum number of aliases reached."]⟩) ∧
    appendPairs sh.aliases ((n, o) :: ps) =
      appendPairs (newname ["newname", n, o] sh fs).shell.aliases ps := by
  refine ⟨foldl_applyOp_length_le fs ops sh h, fun hfull => ?_, ?_⟩
  · simp [newname, if_neg (by omega : ¬ sh.aliases.length < MAX_ALIASES)]
  · by_cases hlt : sh.aliases.length < MAX_ALIASES
    · simp [newname, appendPairs, hlt]
    · simp [newname, appendPairs, hlt]

/-- Witness for C2: starting from a full ten-entry table, a define followed
by a load keeps the table at ten entries, the define reports the capacity
error, and the load loop's first step coincides with the define rule. -/
theorem alias_capacity_invariant_witness :
    (⟨"myshell", ">",
      [⟨"a0", "b"⟩, ⟨"a1", "b"⟩, ⟨"a2", "b"⟩, ⟨"a3", "b"⟩, ⟨"a4", "b"⟩,
       ⟨"a5", "b"⟩, ⟨"a6", "b"⟩, ⟨"a7", "b"⟩, ⟨"a8", "b"⟩, ⟨"a9", "b"⟩]⟩ : Shell).aliases.length
      ≤ MAX_ALIASES ∧
    (([AliasOp.defineOp "x" "y", AliasOp.loadOp "f"].foldl
        (applyOp [("f", "p q r s")])
        ⟨"myshell", ">",
          [⟨"a0", "b"⟩, ⟨"a1", "b"⟩, ⟨"a2", "b"⟩, ⟨"a3", "b"⟩, ⟨"a4", "b"⟩,
           ⟨"a5", "b"⟩, ⟨"a6", "b"⟩, ⟨"a7", "b"⟩, ⟨"a8", "b"⟩, ⟨"a9", "b"⟩]⟩).aliases.length
        ≤ MAX_ALIASES ∧
      ((⟨"myshell", ">",
        [⟨"a0", "b"⟩, ⟨"a1", "b"⟩, ⟨"a2", "b"⟩, ⟨"a3", "b"⟩, ⟨"a4", "b"⟩,
         ⟨"a5", "b"⟩, ⟨"a6", "b"⟩, ⟨"a7", "b"⟩, ⟨"a8", "b"⟩, ⟨"a9", "b"⟩]⟩ : Shell).aliases.length
          = MAX_ALIASES →
        newname ["newname", "n", "o"]
          ⟨"myshell", ">",
            [⟨"a0", "b"⟩, ⟨"a1", "b"⟩, ⟨"a2", "b"⟩, ⟨"a3", "b"⟩, ⟨"a4", "b"⟩,
             ⟨"a5", "b"⟩, ⟨"a6", "b"⟩, ⟨"a7", "b"⟩, ⟨"a8", "b"⟩, ⟨"a9", "b"⟩]⟩
          [("f", "p q r s")] =
          ⟨1, ⟨"myshell", ">",
            [⟨"a0", "b"⟩, ⟨"a1", "b"⟩, ⟨"a2", "b"⟩, ⟨"a3", "b"⟩, ⟨"a4", "b"⟩,
             ⟨"a5", "b"⟩, ⟨"a6", "b"⟩, ⟨"a7", "b"⟩, ⟨"a8", "b"⟩, ⟨"a9", "b"⟩]⟩,
            [("f", "p q r s")], [], ["Maximum number of aliases reached."]⟩) ∧
      appendPairs
        (⟨"myshell", ">",
          [⟨"a0", "b"⟩, ⟨"a1", "b"⟩, ⟨"a2", "b"⟩, ⟨"a3", "b"⟩, ⟨"a4", "b"⟩,
           ⟨"a5", "b"⟩, ⟨"a6", "b"⟩, ⟨"a7", "b"⟩, ⟨"a8", "b"⟩, ⟨"a9", "b"⟩]⟩ : Shell).aliases
        (("n", "o") :: [("u", "v")]) =
      appendPairs
        (newname ["newname", "n", "o"]
          ⟨"myshell", ">",
            [⟨"a0", "b"⟩, ⟨"a1", "b"⟩, ⟨"a2", "b"⟩, ⟨"a3", "b"⟩, ⟨"a4", "b"⟩,
             ⟨"a5", "b"⟩, ⟨"a6", "b"⟩, ⟨"a7", "b"⟩, ⟨"a8", "b"⟩, ⟨"a9", "b"⟩]⟩
          [("f", "p q r s")]).shell.aliases [("u", "v")]) :=
  ⟨by decide,
    alias_capacity_invariant [AliasOp.defineOp "x" "y", AliasOp.loadOp "f"]
      ⟨"myshell", ">",
        [⟨"a0", "b"⟩, ⟨"a1", "b"⟩, ⟨"a2", "b"⟩, ⟨"a3", "b"⟩, ⟨"a4", "b"⟩,
         ⟨"a5", "b"⟩, ⟨"a6", "b"⟩, ⟨"a7", "b"⟩, ⟨"a8", "b"⟩, ⟨"a9", "b"⟩]⟩
      [("f", "p q r s")] "n" "o" [("u", "v")] (by decide)⟩

/-- C4: duplicates are kept and first-defined wins everywhere: a define
whose name already exists appends a second entry (the first stays in
place); resolution returns the target of the earliest-inserted matching
entry; and a one-argument `newname` removes exactly the earliest-inserted
matching entry, keeping the relative order of all remaining entries. -/
theorem alias_first_match_discipline (sh : Shell) (fs : FS) (n o : String)
    (al : List Alias) (i : Nat) (ai : Alias)
    (hi : al[i]? = some ai) (hm : ai.new_name = n)
    (hf : ∀ a ∈ al.take i, a.new_name ≠ n)
    (hlen : sh.aliases.length < MAX_ALIASES)
    (_hdup : ∃ a ∈ sh.aliases, a.new_name = n) :
    (newname ["newname", n, o] sh fs).shell.aliases = sh.aliases ++ [⟨n, o⟩] ∧
    resolveAlias n al = some ai.old_name ∧
    (newname ["newname", n] ⟨sh.shellname, sh.terminator, al⟩ fs).shell.aliases =
      al.take i ++ al.drop (i + 1) := by
  refine ⟨?_, resolveAlias_at n al i ai hi hm hf, ?_⟩
  · simp [newname, hlen]
  · simp [newname, removeFirstAlias_at n al i ai hi hm hf]

/-- Witness for C4: with `n` already defined, a second define appends; in a
table whose earliest `n` sits at index 1, resolution returns that entry's
target and deletion removes exactly that entry. -/
theorem alias_first_match_discipline_witness :
    (([⟨"x", "0"⟩, ⟨"n", "a"⟩, ⟨"n", "b"⟩] : List Alias)[1]? = some ⟨"n", "a"⟩ ∧
      (⟨"n", "a"⟩ : Alias).new_name = "n" ∧
      (∀ a ∈ ([⟨"x", "0"⟩, ⟨"n", "a"⟩, ⟨"n", "b"⟩] : List Alias).take 1, a.new_name ≠ "n") ∧
      (⟨"s", "t", [⟨"n", "z"⟩]⟩ : Shell).aliases.length < MAX_ALIASES ∧
      (∃ a ∈ (⟨"s", "t", [⟨"n", "z"⟩]⟩ : Shell).aliases, a.new_name = "n")) ∧
    ((newname ["newname", "n", "c"] ⟨"s", "t", [⟨"n", "z"⟩]⟩ []).shell.aliases =
        [⟨"n", "z"⟩] ++ [⟨"n", "c"⟩] ∧
      resolveAlias "n" [⟨"x", "0"⟩, ⟨"n", "a"⟩, ⟨"n", "b"⟩] = some (⟨"n", "a"⟩ : Alias).old_name ∧
      (newname ["newname", "n"]
          ⟨(⟨"s", "t", [⟨"n", "z"⟩]⟩ : Shell).shellname,
            (⟨"s", "t", [⟨"n", "z"⟩]⟩ : Shell).terminator,
            [⟨"x", "0"⟩, ⟨"n", "a"⟩, ⟨"n", "b"⟩]⟩ []).shell.aliases =
        ([⟨"x", "0"⟩, ⟨"n", "a"⟩, ⟨"n", "b"⟩] : List Alias).take 1 ++
          ([⟨"x", "0"⟩, ⟨"n", "a"⟩, ⟨"n", "b"⟩] : List Alias).drop 2) :=
  ⟨⟨by decide, by decide, by decide, by decide, by decide⟩,
    alias_first_match_discipline ⟨"s", "t", [⟨"n", "z"⟩]⟩ [] "n" "c"
      [⟨"x", "0"⟩, ⟨"n", "a"⟩, ⟨"n", "b"⟩] 1 ⟨"n", "a"⟩
      (by decide) (by decide) (by decide) (by decide) (by decide)⟩

/-- C3 as stated is false: an alias whose `new_name` is the empty string
contains no whitespace, yet saving and re-loading it into a fresh table
drops the pair, because the saved line `" x\n"` scans back as a single
token. -/
theorem alias_roundtrip_cex :
    (∀ a ∈ ([⟨"", "x"⟩] : List Alias),
      (∀ c ∈ a.new_name.data, isCSpace c = false) ∧
      (∀ c ∈ a.old_name.data, isCSpace c = false)) ∧
    (readnewnames ["readnewnames", "f"] initShell
        (savenewnames ["savenewnames", "f"] ⟨"myshell", ">", [⟨"", "x"⟩]⟩ []).fs).shell.aliases
      ≠ [⟨"", "x"⟩] := by
  decide

/-- The file content written by `savenewnames` is exactly one line
`"<new_name> <old_name>\n"` per alias, in table order. -/
lemma saveContent_eq_join (al : List Alias) :
    saveContent al =
      (al.map (fun a => a.new_name ++ " " ++ a.old_name ++ "\n")).foldr (· ++ ·) "" := by
  induction al with
  | nil => rfl
  | cons a rest ih => simp [saveContent, ih, String.append_assoc]

/-- C3 (amended): for every alias table whose names are non-empty and free
of whitespace, saving to a path and loading that path into a fresh empty
table reproduces the same ordered sequence of pairs, and the saved file
content is exactly one line `"<new_name> <old_name>\n"` per alias in table
order. -/
theorem alias_roundtrip_amended (sh : Shell) (fs : FS) (path nm tm : String)
    (hlen : sh.aliases.length ≤ MAX_ALIASES)
    (hnames : ∀ a ∈ sh.aliases, a.new_name ≠ "" ∧ a.old_name ≠ "" ∧
      (∀ c ∈ a.new_name.data, isCSpace c = false) ∧
      (∀ c ∈ a.old_name.data, isCSpace c = false)) :
    (readnewnames ["readnewnames", path] ⟨nm, tm, []⟩
        (savenewnames ["savenewnames", path] sh fs).fs).shell.aliases = sh.aliases ∧
    fsRead (savenewnames ["savenewnames", path] sh fs).fs path =
      some ((sh.aliases.map (fun a => a.new_name ++ " " ++ a.old_name ++ "\n")).foldr
        (· ++ ·) "") := by
  have hfs : (savenewnames ["savenewnames", path] sh fs).fs =
      (path, saveContent sh.aliases) :: fs := rfl
  have hrd : fsRead ((path, saveContent sh.aliases) :: fs) path =
      some (saveContent sh.aliases) := by simp [fsRead]
  constructor
  · rw [hfs]
    simp only [readnewnames, List.get?_cons_succ, List.get?_cons_zero]
    rw [hrd]
    simp only [pairUp_scanTokens_saveContent sh.aliases hnames]
    rw [appendPairs_all _ [] (by simpa using hlen)]
    simp only [List.nil_append, List.map_map]
    exact (List.map_congr_left (fun a _ => rfl)).trans (List.map_id _)
  · rw [hfs, hrd, saveContent_eq_join]

/-- Witness for C3 (amended): a two-entry table with plain names
round-trips through the persistence format. -/
theorem alias_roundtrip_amended_witness :
    ((⟨"m", ">", [⟨"a", "b"⟩, ⟨"c", "d"⟩]⟩ : Shell).aliases.length ≤ MAX_ALIASES ∧
      (∀ a ∈ (⟨"m", ">", [⟨"a", "b"⟩, ⟨"c", "d"⟩]⟩ : Shell).aliases,
        a.new_name ≠ "" ∧ a.old_name ≠ "" ∧
        (∀ c ∈ a.new_name.data, isCSpace c = false) ∧
        (∀ c ∈ a.old_name.data, isCSpace c = false))) ∧
    ((readnewnames ["readnewnames", "f"] ⟨"x", "y", []⟩
        (savenewnames ["savenewnames", "f"] ⟨"m", ">", [⟨"a", "b"⟩, ⟨"c", "d"⟩]⟩ []).fs).shell.aliases =
      (⟨"m", ">", [⟨"a", "b"⟩, ⟨"c", "d"⟩]⟩ : Shell).aliases ∧
      fsRead (savenewnames ["savenewnames", "f"] ⟨"m", ">", [⟨"a", "b"⟩, ⟨"c", "d"⟩]⟩ []).fs "f" =
        some (((⟨"m", ">", [⟨"a", "b"⟩, ⟨"c", "d"⟩]⟩ : Shell).aliases.map
          (fun a => a.new_name ++ " " ++ a.old_name ++ "\n")).foldr (· ++ ·) "")) :=
  ⟨⟨by decide, by decide⟩,
    alias_roundtrip_amended ⟨"m", ">", [⟨"a", "b"⟩, ⟨"c", "d"⟩]⟩ [] "f" "x" "y"
      (by decide) (by decide)⟩

end MyShell
